import Mathlib

/-!
Verification of the LawScraper repository: a shallow embedding of the
Kentucky-statutes spider (`LawScraper/spiders/KyStateStatutes.py`) and the
download pipeline (`LawScraper/pipelines.py`), with theorems settling the
specification claims.

Conventions of the embedding:
* Python dicts are association lists `Dict := List (String × Val)`, with
  `dget` for subscript reads (KeyError becomes `none`) and `dset` for
  subscript assignment (update in place or append).
* Python generators become a pair: the list of values yielded before any
  exception, and an optional exception (`PyErr`).  A raised exception stops
  all later yields but the earlier yields stand.
* Fallible operations return `Option`: `extract()[0]` on an empty list is an
  IndexError, `re.search(...).group(...)` on a failed search is an
  AttributeError, dict subscript of a missing key is a KeyError.
* External collaborators are parameters: `response.urljoin` is an arbitrary
  function `ujoin : String → String`, the `FILES_STORE` setting is a string
  `store`, and `time.strftime("%Y-%m-%d %H:%M:%S")` is an opaque timestamp
  string `now`.
-/

/-- Python values stored in the item dicts of this scraper: strings,
integers (the converted Roman index) and lists of URL strings. -/
inductive Val where
  | str : String → Val
  | int : Int → Val
  | strlist : List String → Val
deriving DecidableEq

/-- A Python dict, embedded as an association list (first binding wins). -/
abbrev Dict := List (String × Val)

/-- Dict read `d[k]`; `none` is a KeyError. -/
def dget : Dict → String → Option Val
  | [], _ => none
  | (k', v) :: rest, k => if k' = k then some v else dget rest k

/-- Dict write `d[k] = v`: replace the existing binding or append a new one. -/
def dset : Dict → String → Val → Dict
  | [], k, v => [(k, v)]
  | (k', v') :: rest, k, v =>
    if k' = k then (k, v) :: rest else (k', v') :: dset rest k v

/-- Python exceptions that the scraper code can raise. -/
inductive PyErr where
  | indexError
  | attributeError
deriving DecidableEq

/-- The value table `raw` of `roman_to_int`; `none` is a KeyError for a
character outside `{I,V,X,L,C,D,M}`. -/
def romanVal : Char → Option Int
  | 'I' => some 1
  | 'V' => some 5
  | 'X' => some 10
  | 'L' => some 50
  | 'C' => some 100
  | 'D' => some 500
  | 'M' => some 1000
  | _ => none

/-- The loop of `roman_to_int`, carrying the accumulator `res` and the value
`last` of the previous symbol; on `[]` it performs the final `res + last`. -/
def romanGo : List Char → Int → Int → Option Int
  | [], res, last => some (res + last)
  | c :: rest, res, last =>
    match romanVal c with
    | none => none
    | some con =>
      romanGo rest (if con > last then res - last else res + last) con

/-- Embedding of `roman_to_int(roman)` from `KyStateStatutes.py`: subtractive-pair scan
with `res = 0`, `last = 0` initially. -/
def roman_to_int (s : String) : Option Int :=
  romanGo s.data 0 0

/-- Character substitution performed by `re.sub(" ", "_", s)`. -/
def spaceToUnderscore (c : Char) : Char :=
  if c = ' ' then '_' else c

/-- Embedding of `re.sub(" ", "_", s)`: replace every space by an underscore. -/
def subUnderscore (s : String) : String :=
  String.mk (s.data.map spaceToUnderscore)

/-- Embedding of `savepath(meta)` from `KyStateStatutes.py`: join the underscored title
name and chapter name with a slash.  `none` models a KeyError (missing key)
or TypeError (non-string value). -/
def savepath (meta : Dict) : Option String :=
  match dget meta "title_name", dget meta "chapter_name" with
  | some (Val.str t), some (Val.str c) =>
      some (subUnderscore t ++ "/" ++ subUnderscore c)
  | _, _ => none

/-- Membership in the character class `[IVXLCDM]`. -/
def isRomanChar (c : Char) : Bool :=
  c = 'I' || c = 'V' || c = 'X' || c = 'L' || c = 'C' || c = 'D' || c = 'M'

/-- Embedding of `re.search("(?P<ind>[IVXLCDM]+) - ", s)` on the character list of `s`:
scan start positions left to right; at each position take the maximal run of
Roman characters and require the literal `" - "` right after it.  (Backtracking
to a shorter run can never help, because the run is followed by another Roman
character, which is not a space, so this greedy scan is the regex search.)
Returns the group `ind` of the leftmost match. -/
def searchRomanDash : List Char → Option (List Char)
  | [] => none
  | c :: rest =>
    let run := (c :: rest).takeWhile isRomanChar
    if run ≠ [] ∧ ((c :: rest).dropWhile isRomanChar).take 3 = [' ', '-', ' ']
    then some run
    else searchRomanDash rest

/-- Embedding of `title_index(title_name)` from `KyStateStatutes.py`: Roman value of the
`ind` group of the search; `none` is the AttributeError raised by `.group`
when the search fails. -/
def title_index (title_name : String) : Option Int :=
  (searchRomanDash title_name.data).bind fun run => roman_to_int (String.mk run)

/-- Python `\s` on the ASCII whitespace characters. -/
def pyIsSpace (c : Char) : Bool :=
  c = ' ' || c = '\t' || c = '\n' || c = '\x0b' || c = '\x0c' || c = '\r'

/-- Embedding of `re.search("^[.](?P<ind>[^\s]+)", name).group("ind")`: a leading dot
followed by at least one non-whitespace character; the group is the maximal
non-whitespace run after the dot.  `none` is the AttributeError when the
label has no leading dot or nothing non-blank follows it. -/
def subIndexOf (name : String) : Option String :=
  match name.data with
  | '.' :: rest =>
    let tok := rest.takeWhile fun c => !pyIsSpace c
    if tok = [] then none else some (String.mk tok)
  | _ => none

/-- One `<a>` selector node: the lists returned by `xpath("text()").extract()`
and `xpath("./@href").extract()`. -/
structure LinkSel where
  texts : List String
  hrefs : List String
deriving DecidableEq

/-- One title selector node of the index page: its `text()` extraction and the
chapter link nodes found below it. -/
structure TitleSel where
  texts : List String
  chapters : List LinkSel
deriving DecidableEq

/-- A `scrapy.Request` emitted by `parse`: the joined URL and the `passed`
meta dict. -/
structure Request where
  url : String
  passed : Dict
deriving DecidableEq

/-- Inner loop of `KystatestatutesSpider.parse` over the chapter links of one
title: read `chapter_name` (IndexError when `text()` extracted nothing), then
emit a request only when the link has exactly one `href` attribute. -/
def parseChapters (ujoin : String → String) (title_name : String)
    (title_i : Int) : List LinkSel → List Request × Option PyErr
  | [] => ([], none)
  | chapter :: rest =>
    match chapter.texts.head? with
    | none => ([], some PyErr.indexError)
    | some chapter_name =>
      if chapter.hrefs.length = 1 then
        let chapter_link := chapter.hrefs.head?.getD ""
        let pass_along : Dict :=
          [("title_name", Val.str title_name), ("title_index", Val.int title_i),
           ("chapter_name", Val.str chapter_name)]
        let r := parseChapters ujoin title_name title_i rest
        (⟨ujoin chapter_link, pass_along⟩ :: r.1, r.2)
      else parseChapters ujoin title_name title_i rest

/-- Embedding of `KystatestatutesSpider.parse`: for each title read `title_name`
(IndexError when empty), compute `title_index` (AttributeError when the label
has no Roman prefix), then walk its chapter links.  A raised exception ends
the generator; requests yielded before it stand. -/
def parse (ujoin : String → String) : List TitleSel → List Request × Option PyErr
  | [] => ([], none)
  | title :: rest =>
    match title.texts.head? with
    | none => ([], some PyErr.indexError)
    | some title_name =>
      match title_index title_name with
      | none => ([], some PyErr.attributeError)
      | some title_i =>
        let r := parseChapters ujoin title_name title_i title.chapters
        match r.2 with
        | some e => (r.1, some e)
        | none =>
          let r2 := parse ujoin rest
          (r.1 ++ r2.1, r2.2)

/-- The item built for one subchapter link: `response.meta["passed"].copy()`
followed by the four assignments of `parse_chapter`. -/
def emittedItem (passed : Dict) (name tok link : String) : Dict :=
  dset (dset (dset (dset passed "subchapter_name" (Val.str name))
    "subchapter_index" (Val.str tok)) "subchapter_link" (Val.str link))
    "file_urls" (Val.strlist [link])

/-- Embedding of `KystatestatutesSpider.parse_chapter`: for every link read its text
(IndexError when empty), extract the index token after the leading dot
(AttributeError when absent), read the single href (IndexError when absent),
join it, and yield the enriched copy of the passed meta dict. -/
def parse_chapter (ujoin : String → String) (passed : Dict) :
    List LinkSel → List Dict × Option PyErr
  | [] => ([], none)
  | subchapter :: rest =>
    match subchapter.texts.head? with
    | none => ([], some PyErr.indexError)
    | some subchapter_name =>
      match subIndexOf subchapter_name with
      | none => ([], some PyErr.attributeError)
      | some subchapter_ind =>
        match subchapter.hrefs.head? with
        | none => ([], some PyErr.indexError)
        | some href =>
          let subchapter_link := ujoin href
          let r := parse_chapter ujoin passed rest
          (emittedItem passed subchapter_name subchapter_ind subchapter_link
            :: r.1, r.2)

/-- Embedding of `StatePDFPipeline.item_completed` from `pipelines.py`.  `results` is the
engine list of `(success, file_info)` pairs; `item` the work-item dict;
`store` the `FILES_STORE` setting; `now` the formatted wall-clock time.
`none` models an uncaught exception (empty results, missing `path` or
`checksum` key, non-string path). -/
def item_completed (store now : String) (results : List (Bool × Dict))
    (item : Dict) : Option Dict :=
  match results with
  | [] => none
  | (success, file_info) :: _ =>
    if success then
      match dget file_info "path" with
      | some (Val.str p) =>
        let item1 := dset item "pdf_path" (Val.str (store ++ p))
        match dget file_info "checksum" with
        | some c =>
            some (dset (dset item1 "pdf_md5" c) "download_time" (Val.str now))
        | none => none
      | _ => none
    else some (dset item "failure" (Val.str "PDF Download"))

/-- The match predicate of the claim: the character list contains a substring made
of a non-empty run of Roman symbols immediately followed by `" - "`. -/
def hasRomanDash (l : List Char) : Prop :=
  ∃ pre run post, l = pre ++ run ++ ' ' :: '-' :: ' ' :: post ∧
    run ≠ [] ∧ ∀ c ∈ run, isRomanChar c


/-- Conventional spelling of a units digit in a Roman numeral. -/
def unitsTable : Nat → List Char
  | 1 => ['I'] | 2 => ['I','I'] | 3 => ['I','I','I'] | 4 => ['I','V']
  | 5 => ['V'] | 6 => ['V','I'] | 7 => ['V','I','I'] | 8 => ['V','I','I','I']
  | 9 => ['I','X'] | _ => []

/-- Conventional spelling of a tens digit in a Roman numeral. -/
def tensTable : Nat → List Char
  | 1 => ['X'] | 2 => ['X','X'] | 3 => ['X','X','X'] | 4 => ['X','L']
  | 5 => ['L'] | 6 => ['L','X'] | 7 => ['L','X','X'] | 8 => ['L','X','X','X']
  | 9 => ['X','C'] | _ => []

/-- Conventional spelling of a hundreds digit in a Roman numeral. -/
def hundredsTable : Nat → List Char
  | 1 => ['C'] | 2 => ['C','C'] | 3 => ['C','C','C'] | 4 => ['C','D']
  | 5 => ['D'] | 6 => ['D','C'] | 7 => ['D','C','C'] | 8 => ['D','C','C','C']
  | 9 => ['C','M'] | _ => []

/-- Conventional spelling of the sub-thousand part of a Roman numeral. -/
def lowRoman (m : Nat) : List Char :=
  hundredsTable (m % 1000 / 100) ++ tensTable (m % 100 / 10) ++ unitsTable (m % 10)

/-- The conventional (standard subtractive-pair) Roman numeral for a positive
integer: thousands as repeated `M`, then the canonical hundreds, tens and
units groups.  Every well-formed Roman numeral is `canonicalRoman` of its
conventional value. -/
def canonicalRoman (n : Nat) : List Char :=
  List.replicate (n / 1000) 'M' ++ lowRoman (n % 1000)

theorem romanGo_shift (xs : List Char) :
    ∀ (res last : Int),
      romanGo xs res last = (romanGo xs 0 last).map fun v => res + v := by
  induction xs with
  | nil => intro res last; simp [romanGo]
  | cons c rest ih =>
    intro res last
    simp only [romanGo]
    cases hv : romanVal c with
    | none => rfl
    | some con =>
      dsimp only
      rw [ih _ con, ih (if con > last then 0 - last else 0 + last) con]
      cases romanGo rest 0 con with
      | none => rfl
      | some v => split_ifs <;> simp <;> ring

theorem romanGo_mrep (k : Nat) :
    ∀ (xs : List Char) (res : Int),
      romanGo (List.replicate k 'M' ++ xs) res 1000 =
        romanGo xs (res + 1000 * k) 1000 := by
  induction k with
  | zero => intro xs res; simp
  | succ k ih =>
    intro xs res
    rw [List.replicate_succ, List.cons_append]
    show romanGo (List.replicate k 'M' ++ xs)
      (if (1000 : Int) > 1000 then res - 1000 else res + 1000) 1000 =
        romanGo xs (res + 1000 * (k + 1 : Nat)) 1000
    rw [if_neg (by omega), ih xs (res + 1000)]
    congr 1
    push_cast
    ring

set_option maxHeartbeats 4000000 in
set_option maxRecDepth 100000 in
theorem lowRomanGo1000 :
    ∀ m : Nat, m < 1000 → romanGo (lowRoman m) 0 1000 = some (1000 + (m : Int)) := by
  decide

set_option maxHeartbeats 4000000 in
set_option maxRecDepth 100000 in
theorem lowRomanGo0 :
    ∀ m : Nat, m < 1000 → 0 < m → romanGo (lowRoman m) 0 0 = some (m : Int) := by
  decide

/-- C1: for every positive integer, `roman_to_int` maps the conventional
well-formed Roman numeral of that integer back to it, and in particular the
eight concrete conversions of the specification hold. -/
theorem c1_roman_to_int_wellformed :
    (∀ n : Nat, 0 < n →
      roman_to_int (String.mk (canonicalRoman n)) = some (n : Int)) ∧
    roman_to_int "I" = some 1 ∧ roman_to_int "IV" = some 4 ∧
    roman_to_int "IX" = some 9 ∧ roman_to_int "XL" = some 40 ∧
    roman_to_int "XC" = some 90 ∧ roman_to_int "CD" = some 400 ∧
    roman_to_int "CM" = some 900 ∧ roman_to_int "MCMXCIV" = some 1994 := by
  constructor
  · intro n hn
    show romanGo (canonicalRoman n) 0 0 = some (n : Int)
    unfold canonicalRoman
    cases hq : n / 1000 with
    | zero =>
      have hlt : n < 1000 := by omega
      have hm : n % 1000 = n := Nat.mod_eq_of_lt hlt
      rw [hm, List.replicate_zero, List.nil_append]
      exact lowRomanGo0 n hlt hn
    | succ k =>
      rw [List.replicate_succ, List.cons_append]
      show romanGo (List.replicate k 'M' ++ lowRoman (n % 1000))
        (if (1000 : Int) > 0 then 0 - 0 else 0 + 0) 1000 = some (n : Int)
      rw [if_pos (by omega), romanGo_mrep, romanGo_shift,
        lowRomanGo1000 (n % 1000) (by omega)]
      simp only [Option.map_some', Option.some_inj]
      omega
  · decide

theorem c1_roman_to_int_wellformed_witness :
    0 < 1994 ∧
      roman_to_int (String.mk (canonicalRoman 1994)) = some (1994 : Int) :=
  ⟨by decide, c1_roman_to_int_wellformed.1 1994 (by decide)⟩

theorem romanGo_total (xs : List Char) :
    ∀ (res last : Int), (∀ c ∈ xs, isRomanChar c) →
      ∃ n : Int, romanGo xs res last = some n := by
  induction xs with
  | nil => intro res last _; exact ⟨res + last, rfl⟩
  | cons c rest ih =>
    intro res last h
    have hc : isRomanChar c := h c (List.mem_cons_self c rest)
    have hrest : ∀ x ∈ rest, isRomanChar x := fun x hx => h x (List.mem_cons_of_mem c hx)
    have hv : ∃ v, romanVal c = some v := by
      simp only [isRomanChar, Bool.or_eq_true, decide_eq_true_eq] at hc
      rcases hc with ((((((rfl | rfl) | rfl) | rfl) | rfl) | rfl) | rfl) <;>
        exact ⟨_, rfl⟩
    obtain ⟨v, hv⟩ := hv
    simp only [romanGo, hv]
    exact ih _ v hrest

/-- C9: on any string made only of the symbols `I,V,X,L,C,D,M` — well-formed
or not — `roman_to_int` returns some integer and raises no error. -/
theorem c9_roman_to_int_total (s : String) :
    (∀ c ∈ s.data, isRomanChar c) → ∃ n : Int, roman_to_int s = some n :=
  fun h => romanGo_total s.data 0 0 h

theorem c9_roman_to_int_total_witness :
    (∀ c ∈ ("IIV" : String).data, isRomanChar c) ∧
      ∃ n : Int, roman_to_int "IIV" = some n :=
  ⟨by decide, c9_roman_to_int_total "IIV" (by decide)⟩

theorem dget_dset_same (d : Dict) (k : String) (v : Val) :
    dget (dset d k v) k = some v := by
  induction d with
  | nil => simp [dget, dset]
  | cons p rest ih =>
    obtain ⟨k', v'⟩ := p
    by_cases h : k' = k <;> simp [dget, dset, h, ih]

theorem dget_dset_ne (d : Dict) (k k2 : String) (v : Val) (h : k2 ≠ k) :
    dget (dset d k v) k2 = dget d k2 := by
  induction d with
  | nil => simp [dget, dset, Ne.symm h]
  | cons p rest ih =>
    obtain ⟨k', v'⟩ := p
    by_cases hk : k' = k
    · subst hk
      simp [dget, dset, Ne.symm h]
    · simp only [dset, if_neg hk, dget]
      by_cases hk2 : k' = k2
      · rw [if_pos hk2, if_pos hk2]
      · rw [if_neg hk2, if_neg hk2, ih]

/-- C2: on a successful first result carrying `path` and `checksum`,
`item_completed` returns the item enriched with `pdf_path` (storage root
concatenated with the path), `pdf_md5` (the checksum) and `download_time`
(the formatted wall-clock time string). -/
theorem c2_item_completed_success (store now : String) (item file_info : Dict)
    (rest : List (Bool × Dict)) (p : String) (c : Val)
    (hp : dget file_info "path" = some (Val.str p))
    (hc : dget file_info "checksum" = some c) :
    ∃ res, item_completed store now ((true, file_info) :: rest) item = some res ∧
      dget res "pdf_path" = some (Val.str (store ++ p)) ∧
      dget res "pdf_md5" = some c ∧
      dget res "download_time" = some (Val.str now) := by
  refine ⟨dset (dset (dset item "pdf_path" (Val.str (store ++ p)))
    "pdf_md5" c) "download_time" (Val.str now), ?_, ?_, ?_, ?_⟩
  · simp [item_completed, hp, hc]
  · rw [dget_dset_ne _ _ _ _ (by decide), dget_dset_ne _ _ _ _ (by decide),
      dget_dset_same]
  · rw [dget_dset_ne _ _ _ _ (by decide), dget_dset_same]
  · rw [dget_dset_same]

theorem c2_item_completed_success_witness :
    dget [("path", Val.str "a/b.pdf"), ("checksum", Val.str "abc123")] "path" =
      some (Val.str "a/b.pdf") ∧
    dget [("path", Val.str "a/b.pdf"), ("checksum", Val.str "abc123")] "checksum" =
      some (Val.str "abc123") ∧
    ∃ res, item_completed "/data/" "2015-06-01 12:00:00"
        [(true, [("path", Val.str "a/b.pdf"), ("checksum", Val.str "abc123")])]
        [] = some res ∧
      dget res "pdf_path" = some (Val.str ("/data/" ++ "a/b.pdf")) ∧
      dget res "pdf_md5" = some (Val.str "abc123") ∧
      dget res "download_time" = some (Val.str "2015-06-01 12:00:00") :=
  ⟨by decide, by decide,
    c2_item_completed_success "/data/" "2015-06-01 12:00:00" []
      [("path", Val.str "a/b.pdf"), ("checksum", Val.str "abc123")] []
      "a/b.pdf" (Val.str "abc123") (by decide) (by decide)⟩

/-- C3: on a failed first result, `item_completed` returns the item with
`failure = "PDF Download"` set and every other key unchanged; in particular
no `pdf_path`, `pdf_md5` or `download_time` key is added. -/
theorem c3_item_completed_failure (store now : String) (item file_info : Dict)
    (rest : List (Bool × Dict)) :
    item_completed store now ((false, file_info) :: rest) item =
      some (dset item "failure" (Val.str "PDF Download")) ∧
    dget (dset item "failure" (Val.str "PDF Download")) "failure" =
      some (Val.str "PDF Download") ∧
    ∀ k : String, k ≠ "failure" →
      dget (dset item "failure" (Val.str "PDF Download")) k = dget item k :=
  ⟨rfl, dget_dset_same item "failure" (Val.str "PDF Download"),
    fun k hk => dget_dset_ne item "failure" k (Val.str "PDF Download") hk⟩

theorem c3_item_completed_failure_witness :
    item_completed "/data/" "ts" [(false, [])] [("x", Val.int 7)] =
      some (dset [("x", Val.int 7)] "failure" (Val.str "PDF Download")) ∧
    dget (dset [("x", Val.int 7)] "failure" (Val.str "PDF Download"))
      "pdf_path" = dget [("x", Val.int 7)] "pdf_path" :=
  ⟨(c3_item_completed_failure "/data/" "ts" [("x", Val.int 7)] [] []).1,
    (c3_item_completed_failure "/data/" "ts" [("x", Val.int 7)] [] []).2.2
      "pdf_path" (by decide)⟩

/-- C8: starting from an item carrying none of `failure`, `pdf_path`,
`pdf_md5`, `download_time`, any item returned by `item_completed` carries
exactly one of the failure marker or the success triple, never both. -/
theorem c8_failure_xor_triple (store now : String)
    (results : List (Bool × Dict)) (item res : Dict)
    (hf : dget item "failure" = none) (h1 : dget item "pdf_path" = none)
    (h2 : dget item "pdf_md5" = none) (h3 : dget item "download_time" = none)
    (hres : item_completed store now results item = some res) :
    (dget res "failure" = some (Val.str "PDF Download") ∧
      dget res "pdf_path" = none ∧ dget res "pdf_md5" = none ∧
      dget res "download_time" = none) ∨
    (dget res "failure" = none ∧ (dget res "pdf_path").isSome ∧
      (dget res "pdf_md5").isSome ∧ (dget res "download_time").isSome) := by
  match results with
  | [] => simp [item_completed] at hres
  | (success, file_info) :: rest =>
    cases success with
    | false =>
      left
      simp only [item_completed, Bool.false_eq_true, if_false,
        Option.some_inj] at hres
      subst hres
      refine ⟨dget_dset_same _ _ _, ?_, ?_, ?_⟩ <;>
        rw [dget_dset_ne _ _ _ _ (by decide)] <;> assumption
    | true =>
      right
      simp only [item_completed, if_true] at hres
      cases hpath : dget file_info "path" with
      | none => rw [hpath] at hres; exact absurd hres (by simp)
      | some v =>
        rw [hpath] at hres
        cases v with
        | int i => exact absurd hres (by simp)
        | strlist l => exact absurd hres (by simp)
        | str p =>
          cases hchk : dget file_info "checksum" with
          | none => rw [hchk] at hres; exact absurd hres (by simp)
          | some c =>
            rw [hchk] at hres
            simp only [Option.some_inj] at hres
            subst hres
            refine ⟨?_, ?_, ?_, ?_⟩
            · rw [dget_dset_ne _ _ _ _ (by decide),
                dget_dset_ne _ _ _ _ (by decide),
                dget_dset_ne _ _ _ _ (by decide)]
              exact hf
            · rw [dget_dset_ne _ _ _ _ (by decide),
                dget_dset_ne _ _ _ _ (by decide), dget_dset_same]
              rfl
            · rw [dget_dset_ne _ _ _ _ (by decide), dget_dset_same]
              rfl
            · rw [dget_dset_same]
              rfl

theorem c8_failure_xor_triple_witness :
    dget [("x", Val.int 7)] "failure" = none ∧
    dget [("x", Val.int 7)] "pdf_path" = none ∧
    dget [("x", Val.int 7)] "pdf_md5" = none ∧
    dget [("x", Val.int 7)] "download_time" = none ∧
    item_completed "/d/" "ts" [(false, [])] [("x", Val.int 7)] =
      some [("x", Val.int 7), ("failure", Val.str "PDF Download")] ∧
    ((dget [("x", Val.int 7), ("failure", Val.str "PDF Download")] "failure" =
        some (Val.str "PDF Download") ∧
      dget [("x", Val.int 7), ("failure", Val.str "PDF Download")] "pdf_path" = none ∧
      dget [("x", Val.int 7), ("failure", Val.str "PDF Download")] "pdf_md5" = none ∧
      dget [("x", Val.int 7), ("failure", Val.str "PDF Download")] "download_time" = none) ∨
    (dget [("x", Val.int 7), ("failure", Val.str "PDF Download")] "failure" = none ∧
      (dget [("x", Val.int 7), ("failure", Val.str "PDF Download")] "pdf_path").isSome ∧
      (dget [("x", Val.int 7), ("failure", Val.str "PDF Download")] "pdf_md5").isSome ∧
      (dget [("x", Val.int 7), ("failure", Val.str "PDF Download")] "download_time").isSome)) :=
  ⟨by decide, by decide, by decide, by decide, by decide,
    c8_failure_xor_triple "/d/" "ts" [(false, [])] [("x", Val.int 7)]
      [("x", Val.int 7), ("failure", Val.str "PDF Download")]
      (by decide) (by decide) (by decide) (by decide) (by decide)⟩

/-- C10: `savepath` on the example mapping gives
`I_-_General_Provisions/1_Definitions`, and in general it maps every space of
the two string values to an underscore, leaves every other character
untouched, and joins the results with a slash. -/
theorem c10_savepath_underscores :
    savepath [("title_name", Val.str "I - General Provisions"),
      ("chapter_name", Val.str "1 Definitions")] =
        some "I_-_General_Provisions/1_Definitions" ∧
    ∀ (meta : Dict) (t c : String),
      dget meta "title_name" = some (Val.str t) →
      dget meta "chapter_name" = some (Val.str c) →
      ∃ r, savepath meta = some r ∧
        r.data = t.data.map spaceToUnderscore ++
          '/' :: c.data.map spaceToUnderscore := by
  constructor
  · decide
  · intro meta t c ht hc
    refine ⟨subUnderscore t ++ "/" ++ subUnderscore c, ?_, ?_⟩
    · simp [savepath, ht, hc]
    · show (subUnderscore t ++ "/" ++ subUnderscore c).data = _
      rw [String.data_append, String.data_append]
      simp [subUnderscore]

theorem c10_savepath_underscores_witness :
    dget [("title_name", Val.str "I - General Provisions"),
        ("chapter_name", Val.str "1 Definitions")] "title_name" =
      some (Val.str "I - General Provisions") ∧
    dget [("title_name", Val.str "I - General Provisions"),
        ("chapter_name", Val.str "1 Definitions")] "chapter_name" =
      some (Val.str "1 Definitions") ∧
    ∃ r, savepath [("title_name", Val.str "I - General Provisions"),
        ("chapter_name", Val.str "1 Definitions")] = some r ∧
      r.data = ("I - General Provisions").data.map spaceToUnderscore ++
        '/' :: ("1 Definitions").data.map spaceToUnderscore :=
  ⟨by decide, by decide,
    c10_savepath_underscores.2
      [("title_name", Val.str "I - General Provisions"),
        ("chapter_name", Val.str "1 Definitions")]
      "I - General Provisions" "1 Definitions" (by decide) (by decide)⟩

theorem takeWhileRoman_append (xs ys : List Char) :
    (∀ x ∈ xs, isRomanChar x) →
      (xs ++ ' ' :: ys).takeWhile isRomanChar = xs ∧
      (xs ++ ' ' :: ys).dropWhile isRomanChar = ' ' :: ys := by
  induction xs with
  | nil => intro _; exact ⟨rfl, rfl⟩
  | cons x xs ih =>
    intro h
    have hx : isRomanChar x := h x (List.mem_cons_self x xs)
    obtain ⟨ih1, ih2⟩ := ih fun a ha => h a (List.mem_cons_of_mem x ha)
    rw [List.cons_append]
    constructor
    · rw [List.takeWhile_cons, if_pos hx, ih1]
    · rw [List.dropWhile_cons, if_pos hx, ih2]

theorem searchRomanDash_isSome (run post : List Char) :
    ∀ pre : List Char, run ≠ [] → (∀ c ∈ run, isRomanChar c) →
      (searchRomanDash (pre ++ run ++ ' ' :: '-' :: ' ' :: post)).isSome := by
  intro pre
  induction pre with
  | nil =>
    intro hne hall
    match run, hne with
    | a :: run', _ =>
      obtain ⟨h1, h2⟩ := takeWhileRoman_append (a :: run') ('-' :: ' ' :: post) hall
      rw [List.cons_append] at h1 h2
      rw [List.nil_append, List.cons_append]
      simp only [searchRomanDash]
      simp [h1, h2]
  | cons p pre' ih =>
    intro hne hall
    rw [List.cons_append]
    simp only [searchRomanDash]
    split
    · simp
    · exact ih hne hall

theorem hasRomanDash_of_search (l : List Char) :
    ∀ r : List Char, searchRomanDash l = some r → hasRomanDash l := by
  induction l with
  | nil => intro r h; simp [searchRomanDash] at h
  | cons c rest ih =>
    intro r h
    simp only [searchRomanDash] at h
    split_ifs at h with hcond
    · refine ⟨[], (c :: rest).takeWhile isRomanChar,
        ((c :: rest).dropWhile isRomanChar).drop 3, ?_, hcond.1,
        fun x hx => List.mem_takeWhile_imp hx⟩
      rw [List.nil_append]
      conv_lhs => rw [← List.takeWhile_append_dropWhile isRomanChar (c :: rest)]
      congr 1
      rw [← List.take_append_drop 3 ((c :: rest).dropWhile isRomanChar), hcond.2]
      rfl
    · obtain ⟨pre, run, post, heq, hne, hall⟩ := ih r h
      exact ⟨c :: pre, run, post,
        by rw [heq]; simp [List.cons_append, List.append_assoc], hne, hall⟩

/-- C7: `title_index` converts `"IV - Revenue and Taxation"` to 4, and raises
an extraction error on every title label containing no substring made of a
non-empty Roman-symbol run followed by `" - "`. -/
theorem c7_title_index_extraction :
    title_index "IV - Revenue and Taxation" = some 4 ∧
    ∀ s : String, ¬ hasRomanDash s.data → title_index s = none := by
  constructor
  · decide
  · intro s hno
    cases hsr : searchRomanDash s.data with
    | none => simp [title_index, hsr]
    | some r => exact absurd (hasRomanDash_of_search s.data r hsr) hno

theorem c7_title_index_extraction_witness :
    ¬ hasRomanDash ("KRS Title 4" : String).data ∧
      title_index "KRS Title 4" = none := by
  have hno : ¬ hasRomanDash ("KRS Title 4" : String).data := by
    intro hh
    obtain ⟨pre, run, post, heq, hne, hall⟩ := hh
    have hsome := searchRomanDash_isSome run post pre hne hall
    rw [← heq] at hsome
    have : searchRomanDash ("KRS Title 4" : String).data = none := by decide
    rw [this] at hsome
    exact absurd hsome (by decide)
  exact ⟨hno, c7_title_index_extraction.2 "KRS Title 4" hno⟩

theorem emittedItem_dget (passed : Dict) (name tok link : String) :
    dget (emittedItem passed name tok link) "subchapter_name" =
      some (Val.str name) ∧
    dget (emittedItem passed name tok link) "subchapter_index" =
      some (Val.str tok) ∧
    dget (emittedItem passed name tok link) "subchapter_link" =
      some (Val.str link) ∧
    dget (emittedItem passed name tok link) "file_urls" =
      some (Val.strlist [link]) ∧
    ∀ k : String, k ≠ "subchapter_name" → k ≠ "subchapter_index" →
      k ≠ "subchapter_link" → k ≠ "file_urls" →
      dget (emittedItem passed name tok link) k = dget passed k := by
  unfold emittedItem
  refine ⟨?_, ?_, ?_, dget_dset_same _ _ _, ?_⟩
  · rw [dget_dset_ne _ _ _ _ (by decide), dget_dset_ne _ _ _ _ (by decide),
      dget_dset_ne _ _ _ _ (by decide), dget_dset_same]
  · rw [dget_dset_ne _ _ _ _ (by decide), dget_dset_ne _ _ _ _ (by decide),
      dget_dset_same]
  · rw [dget_dset_ne _ _ _ _ (by decide), dget_dset_same]
  · intro k h1 h2 h3 h4
    rw [dget_dset_ne _ _ _ _ h4, dget_dset_ne _ _ _ _ h3,
      dget_dset_ne _ _ _ _ h2, dget_dset_ne _ _ _ _ h1]

/-- C4: every item yielded by `parse_chapter` carries the passed context keys
`title_name`, `title_index`, `chapter_name` unchanged, and for some link of
the page it adds `subchapter_name` (the link text), `subchapter_index` (the
token after the leading dot, up to the first whitespace), `subchapter_link`
(the href joined to an absolute URL) and `file_urls` (that link as a
singleton list). -/
theorem c4_parse_chapter_items (ujoin : String → String) (passed : Dict)
    (links : List LinkSel) (item : Dict)
    (hmem : item ∈ (parse_chapter ujoin passed links).1) :
    dget item "title_name" = dget passed "title_name" ∧
    dget item "title_index" = dget passed "title_index" ∧
    dget item "chapter_name" = dget passed "chapter_name" ∧
    ∃ sub, sub ∈ links ∧ ∃ name tok href,
      sub.texts.head? = some name ∧ subIndexOf name = some tok ∧
      sub.hrefs.head? = some href ∧
      dget item "subchapter_name" = some (Val.str name) ∧
      dget item "subchapter_index" = some (Val.str tok) ∧
      dget item "subchapter_link" = some (Val.str (ujoin href)) ∧
      dget item "file_urls" = some (Val.strlist [ujoin href]) := by
  induction links with
  | nil => simp [parse_chapter] at hmem
  | cons sub rest ih =>
    cases hname : sub.texts.head? with
    | none => simp only [parse_chapter, hname] at hmem; simp at hmem
    | some name =>
      cases hind : subIndexOf name with
      | none => simp only [parse_chapter, hname, hind] at hmem; simp at hmem
      | some tok =>
        cases hhref : sub.hrefs.head? with
        | none => simp only [parse_chapter, hname, hind, hhref] at hmem
                  simp at hmem
        | some href =>
          simp only [parse_chapter, hname, hind, hhref] at hmem
          rcases List.mem_cons.mp hmem with rfl | hmem2
          · obtain ⟨e1, e2, e3, e4, e5⟩ :=
              emittedItem_dget passed name tok (ujoin href)
            refine ⟨e5 _ (by decide) (by decide) (by decide) (by decide),
              e5 _ (by decide) (by decide) (by decide) (by decide),
              e5 _ (by decide) (by decide) (by decide) (by decide),
              sub, List.mem_cons_self sub rest, name, tok, href,
              hname, hind, hhref, e1, e2, e3, e4⟩
          · obtain ⟨g1, g2, g3, sub2, hsub2, rest2⟩ := ih hmem2
            exact ⟨g1, g2, g3, sub2, List.mem_cons_of_mem sub hsub2, rest2⟩

theorem c4_parse_chapter_items_witness :
    emittedItem [("title_name", Val.str "Ti"), ("title_index", Val.int 9),
        ("chapter_name", Val.str "Ch")] ".010 Defs" "010"
        (String.append "u/" "x.pdf") ∈
      (parse_chapter (fun h => String.append "u/" h)
        [("title_name", Val.str "Ti"), ("title_index", Val.int 9),
          ("chapter_name", Val.str "Ch")]
        [⟨[".010 Defs"], ["x.pdf"]⟩]).1 ∧
    (dget (emittedItem [("title_name", Val.str "Ti"), ("title_index", Val.int 9),
        ("chapter_name", Val.str "Ch")] ".010 Defs" "010"
        (String.append "u/" "x.pdf")) "title_name" =
      dget [("title_name", Val.str "Ti"), ("title_index", Val.int 9),
        ("chapter_name", Val.str "Ch")] "title_name" ∧
    dget (emittedItem [("title_name", Val.str "Ti"), ("title_index", Val.int 9),
        ("chapter_name", Val.str "Ch")] ".010 Defs" "010"
        (String.append "u/" "x.pdf")) "title_index" =
      dget [("title_name", Val.str "Ti"), ("title_index", Val.int 9),
        ("chapter_name", Val.str "Ch")] "title_index" ∧
    dget (emittedItem [("title_name", Val.str "Ti"), ("title_index", Val.int 9),
        ("chapter_name", Val.str "Ch")] ".010 Defs" "010"
        (String.append "u/" "x.pdf")) "chapter_name" =
      dget [("title_name", Val.str "Ti"), ("title_index", Val.int 9),
        ("chapter_name", Val.str "Ch")] "chapter_name" ∧
    ∃ sub, sub ∈ [(⟨[".010 Defs"], ["x.pdf"]⟩ : LinkSel)] ∧
      ∃ name tok href,
      sub.texts.head? = some name ∧ subIndexOf name = some tok ∧
      sub.hrefs.head? = some href ∧
      dget (emittedItem [("title_name", Val.str "Ti"), ("title_index", Val.int 9),
          ("chapter_name", Val.str "Ch")] ".010 Defs" "010"
          (String.append "u/" "x.pdf")) "subchapter_name" =
        some (Val.str name) ∧
      dget (emittedItem [("title_name", Val.str "Ti"), ("title_index", Val.int 9),
          ("chapter_name", Val.str "Ch")] ".010 Defs" "010"
          (String.append "u/" "x.pdf")) "subchapter_index" =
        some (Val.str tok) ∧
      dget (emittedItem [("title_name", Val.str "Ti"), ("title_index", Val.int 9),
          ("chapter_name", Val.str "Ch")] ".010 Defs" "010"
          (String.append "u/" "x.pdf")) "subchapter_link" =
        some (Val.str ((fun h => String.append "u/" h) href)) ∧
      dget (emittedItem [("title_name", Val.str "Ti"), ("title_index", Val.int 9),
          ("chapter_name", Val.str "Ch")] ".010 Defs" "010"
          (String.append "u/" "x.pdf")) "file_urls" =
        some (Val.strlist [(fun h => String.append "u/" h) href])) :=
  ⟨by decide,
    c4_parse_chapter_items (fun h => String.append "u/" h)
      [("title_name", Val.str "Ti"), ("title_index", Val.int 9),
        ("chapter_name", Val.str "Ch")]
      [⟨[".010 Defs"], ["x.pdf"]⟩]
      (emittedItem [("title_name", Val.str "Ti"), ("title_index", Val.int 9),
        ("chapter_name", Val.str "Ch")] ".010 Defs" "010"
        (String.append "u/" "x.pdf"))
      (by decide)⟩

theorem parseChapters_ok (ujoin : String → String) (tn : String) (ti : Int) :
    ∀ chs : List LinkSel, (∀ ch ∈ chs, ch.texts ≠ []) →
      parseChapters ujoin tn ti chs =
        ((chs.filter fun ch => ch.hrefs.length = 1).map fun ch =>
          (⟨ujoin (ch.hrefs.head?.getD ""),
            [("title_name", Val.str tn), ("title_index", Val.int ti),
             ("chapter_name", Val.str (ch.texts.head?.getD ""))]⟩ : Request),
         none) := by
  intro chs
  induction chs with
  | nil => intro _; rfl
  | cons ch rest ih =>
    intro h
    obtain ⟨cn, hcn⟩ : ∃ cn, ch.texts.head? = some cn := by
      cases hts : ch.texts with
      | nil => exact absurd hts (h ch (List.mem_cons_self ch rest))
      | cons a l => exact ⟨a, rfl⟩
    have hrest := ih fun c hc => h c (List.mem_cons_of_mem ch hc)
    by_cases hlen : ch.hrefs.length = 1 <;>
      simp [parseChapters, hcn, hrest, List.filter_cons, hlen]

/-- C5: when every title label extracts and parses and every chapter link has
a text, `parse` emits exactly one request per chapter link with exactly one
href attribute — links with zero or several hrefs are skipped with no error —
and each request carries the inherited `title_name`, `title_index` and
`chapter_name`. -/
theorem c5_parse_requests (ujoin : String → String) :
    ∀ titles : List TitleSel,
      (∀ t ∈ titles, t.texts ≠ [] ∧
        (title_index (t.texts.head?.getD "")).isSome ∧
        ∀ ch ∈ t.chapters, ch.texts ≠ []) →
      parse ujoin titles =
        (titles.flatMap fun t =>
          (t.chapters.filter fun ch => ch.hrefs.length = 1).map fun ch =>
            (⟨ujoin (ch.hrefs.head?.getD ""),
              [("title_name", Val.str (t.texts.head?.getD "")),
               ("title_index",
                 Val.int ((title_index (t.texts.head?.getD "")).getD 0)),
               ("chapter_name", Val.str (ch.texts.head?.getD ""))]⟩ : Request),
         none) := by
  intro titles
  induction titles with
  | nil => intro _; rfl
  | cons t rest ih =>
    intro h
    obtain ⟨ht1, ht2, ht3⟩ := h t (List.mem_cons_self t rest)
    obtain ⟨tn, htn⟩ : ∃ tn, t.texts.head? = some tn := by
      cases hts : t.texts with
      | nil => exact absurd hts ht1
      | cons a l => exact ⟨a, rfl⟩
    have hgetD : t.texts.head?.getD "" = tn := by rw [htn]; rfl
    rw [hgetD] at ht2
    obtain ⟨ti, hti⟩ := Option.isSome_iff_exists.mp ht2
    have hrest := ih fun x hx => h x (List.mem_cons_of_mem t hx)
    simp only [parse, htn, hti, parseChapters_ok ujoin tn ti t.chapters ht3,
      hrest, List.flatMap_cons, hgetD, Option.getD_some]

theorem c5_parse_requests_witness :
    (∀ t ∈ [(⟨["I - A"], [⟨["1 C"], ["a"]⟩, ⟨["2 C"], []⟩]⟩ : TitleSel),
        ⟨["II - B"], [⟨["3 C"], ["b"]⟩, ⟨["4 C"], ["c"]⟩]⟩],
      t.texts ≠ [] ∧ (title_index (t.texts.head?.getD "")).isSome ∧
        ∀ ch ∈ t.chapters, ch.texts ≠ []) ∧
    parse (fun h => String.append "u/" h)
      [⟨["I - A"], [⟨["1 C"], ["a"]⟩, ⟨["2 C"], []⟩]⟩,
        ⟨["II - B"], [⟨["3 C"], ["b"]⟩, ⟨["4 C"], ["c"]⟩]⟩] =
      ([⟨String.append "u/" "a",
          [("title_name", Val.str "I - A"), ("title_index", Val.int 1),
           ("chapter_name", Val.str "1 C")]⟩,
        ⟨String.append "u/" "b",
          [("title_name", Val.str "II - B"), ("title_index", Val.int 2),
           ("chapter_name", Val.str "3 C")]⟩,
        ⟨String.append "u/" "c",
          [("title_name", Val.str "II - B"), ("title_index", Val.int 2),
           ("chapter_name", Val.str "4 C")]⟩], none) ∧
    (parse (fun h => String.append "u/" h)
      [⟨["I - A"], [⟨["1 C"], ["a"]⟩, ⟨["2 C"], []⟩]⟩,
        ⟨["II - B"], [⟨["3 C"], ["b"]⟩, ⟨["4 C"], ["c"]⟩]⟩]).1.length = 3 := by
  have h := c5_parse_requests (fun h => String.append "u/" h)
    [⟨["I - A"], [⟨["1 C"], ["a"]⟩, ⟨["2 C"], []⟩]⟩,
      ⟨["II - B"], [⟨["3 C"], ["b"]⟩, ⟨["4 C"], ["c"]⟩]⟩] (by decide)
  exact ⟨by decide, h.trans (by decide), by rw [h]; decide⟩

theorem subIndexOf_no_dot (t : String) (h : t.data.head? ≠ some '.') :
    subIndexOf t = none := by
  unfold subIndexOf
  cases ht : t.data with
  | nil => rfl
  | cons hd rest =>
    have hhd : hd ≠ '.' := fun hh => h (by rw [ht, hh]; rfl)
    split
    · next r heq =>
      injection heq with h1 h2
      exact absurd h1 hhd
    · rfl

/-- C6: when a chapter-page link text does not start with a dot,
`parse_chapter` emits the items of the links before it (assuming those all
extract), raises the extraction error at the offending link, and emits
nothing for any later link. -/
theorem c6_parse_chapter_failfast (ujoin : String → String) (passed : Dict)
    (bad : LinkSel) (suf : List LinkSel) (t : String) :
    ∀ pre : List LinkSel,
      (∀ sub ∈ pre, sub.texts ≠ [] ∧
        (subIndexOf (sub.texts.head?.getD "")).isSome ∧ sub.hrefs ≠ []) →
      bad.texts.head? = some t →
      t.data.head? ≠ some '.' →
      parse_chapter ujoin passed (pre ++ bad :: suf) =
        (pre.map fun sub =>
          emittedItem passed (sub.texts.head?.getD "")
            ((subIndexOf (sub.texts.head?.getD "")).getD "")
            (ujoin (sub.hrefs.head?.getD "")),
         some PyErr.attributeError) := by
  intro pre
  induction pre with
  | nil =>
    intro _ hbt hnd
    rw [List.nil_append]
    simp only [parse_chapter, hbt, subIndexOf_no_dot t hnd]
    rfl
  | cons s pre' ih =>
    intro hgood hbt hnd
    obtain ⟨hs1, hs2, hs3⟩ := hgood s (List.mem_cons_self s pre')
    obtain ⟨name, hname⟩ : ∃ a, s.texts.head? = some a := by
      cases hts : s.texts with
      | nil => exact absurd hts hs1
      | cons a l => exact ⟨a, rfl⟩
    have hgetD : s.texts.head?.getD "" = name := by rw [hname]; rfl
    rw [hgetD] at hs2
    obtain ⟨tok, htok⟩ := Option.isSome_iff_exists.mp hs2
    obtain ⟨href, hhref⟩ : ∃ a, s.hrefs.head? = some a := by
      cases hhs : s.hrefs with
      | nil => exact absurd hhs hs3
      | cons a l => exact ⟨a, rfl⟩
    have hhgetD : s.hrefs.head?.getD "" = href := by rw [hhref]; rfl
    rw [List.cons_append]
    simp only [parse_chapter, hname, htok, hhref,
      ih (fun x hx => hgood x (List.mem_cons_of_mem s hx)) hbt hnd,
      List.map_cons, hgetD, hhgetD, Option.getD_some]

theorem c6_parse_chapter_failfast_witness :
    (∀ sub ∈ [(⟨[".010 A"], ["a.pdf"]⟩ : LinkSel)], sub.texts ≠ [] ∧
      (subIndexOf (sub.texts.head?.getD "")).isSome ∧ sub.hrefs ≠ []) ∧
    (⟨["Bad"], ["b.pdf"]⟩ : LinkSel).texts.head? = some "Bad" ∧
    ("Bad" : String).data.head? ≠ some '.' ∧
    parse_chapter (fun h => String.append "u/" h) [("title_name", Val.str "Ti")]
      ([⟨[".010 A"], ["a.pdf"]⟩] ++ ⟨["Bad"], ["b.pdf"]⟩ :: [⟨[".030 C"], ["c.pdf"]⟩]) =
      ([emittedItem [("title_name", Val.str "Ti")] ".010 A" "010"
          (String.append "u/" "a.pdf")], some PyErr.attributeError) := by
  have h := c6_parse_chapter_failfast (fun h => String.append "u/" h)
    [("title_name", Val.str "Ti")] ⟨["Bad"], ["b.pdf"]⟩
    [⟨[".030 C"], ["c.pdf"]⟩] "Bad" [⟨[".010 A"], ["a.pdf"]⟩]
    (by decide) rfl (by decide)
  exact ⟨by decide, rfl, by decide, h.trans (by decide)⟩
